import Mathlib

/-!
Verification of the QR-DQN agent (`src/agents/qr_dqn_agent.py`).

Shallow embedding conventions:
* Tensors of shape `(B, na, nq)` become functions `Fin B → Fin na → Fin nq → ℚ`;
  float arithmetic is modelled over `ℚ`.
* The opaque convolutional approximator `QRCNN` is a parameter
  `F : θ → Obs → Fin na → Fin nq → ℚ` (parameters, observation, action, quantile),
  matching the spec's "opaque mapping from an image tensor to per-action quantile
  vectors"; `θ` is the parameter-set type shared by online and target networks.
* The prioritized replay buffer is the external interface `ReplayInterface`
  (`size`/`sample`/`update_priorities`), as the spec prescribes.
* `random.random()` draws are passed in explicitly (`r`), so `if r < epsilon`
  embeds the epsilon-greedy branch.
* The Adam update produced by `optimizer.step()` after `weighted_loss.backward()`
  is the abstract function `optStep`, applied to the current online parameters and
  to the loss as a function of candidate online parameters (targets held fixed,
  exactly as `torch.no_grad` fixes them in the source).
-/

/-- Arithmetic mean of a `Fin n`-indexed vector, the meaning of `tensor.mean(dim)`
over an axis of size `n`. -/
def meanFin {n : ℕ} (f : Fin n → ℚ) : ℚ :=
  (List.ofFn f).sum / (n : ℚ)

/-- Entry `i` of `torch.linspace(a, b, steps)`:
`a + (b - a) * i / (steps - 1)`. -/
def linspace (a b : ℚ) (steps : ℕ) (i : Fin steps) : ℚ :=
  a + (b - a) * (i : ℚ) / ((steps : ℚ) - 1)

/-- `self.tau_hat = torch.linspace(0.0, 1.0, num_quantiles+1)[:-1] + 0.5 / num_quantiles`
(line 62 of the source): the first `n` entries of an `(n+1)`-point linspace,
shifted by `0.5 / n`. -/
def tau_hat (n : ℕ) (i : Fin n) : ℚ :=
  linspace 0 1 (n + 1) i.castSucc + 1 / (2 * (n : ℚ))

/-- `QRDQNAgent.huber` (lines 195-201):
`cond = (x.abs() < k).float(); 0.5 * cond * x.pow(2) + (1 - cond) * k * (x.abs() - 0.5 * k)`. -/
def huber (x : ℚ) (k : ℚ) : ℚ :=
  let cond : ℚ := if |x| < k then 1 else 0
  1 / 2 * cond * x ^ 2 + (1 - cond) * k * (|x| - 1 / 2 * k)

/-- `.float()` applied to a boolean done flag. -/
def doneFloat (d : Bool) : ℚ := if d then 1 else 0

/-- `torch.argmax` along an axis of size `n` (index of the first maximal entry),
for nonempty `n`; used for `best_actions = next_q_online_mean.argmax(dim=1)`. -/
def argmaxFin {n : ℕ} (q : Fin n → ℚ) (h : 0 < n) : Fin n :=
  ((List.finRange n).argmax q).getD ⟨0, h⟩

/-- `q_values.argmax(dim=1).item()` in `choose_action`: the natural-number index
of the first maximal entry (`0` in the degenerate empty case). -/
def greedy_action {n : ℕ} (q : Fin n → ℚ) : ℕ :=
  (((List.finRange n).argmax q).map Fin.val).getD 0

/-- Linear interpolation into a list at fractional position `pos`, reading the
entries at `⌊pos⌋` and `⌈pos⌉`: the evaluation rule of `torch.quantile` with the
default linear interpolation, applied to the already-sorted data. -/
def interpAt (s : List ℚ) (pos : ℚ) : ℚ :=
  s.getD (Int.toNat ⌊pos⌋) 0 +
    (pos - (⌊pos⌋ : ℚ)) * (s.getD (Int.toNat ⌈pos⌉) 0 - s.getD (Int.toNat ⌊pos⌋) 0)

/-- `tensor.quantile(q, dim)` on a vector of length `l.length`: sort the data and
linearly interpolate at virtual index `q * (n - 1)`. -/
def torchQuantile (q : ℚ) (l : List ℚ) : ℚ :=
  interpAt (l.insertionSort (· ≤ ·)) (q * ((l.length : ℚ) - 1))

/-- The risk-dependent reduction of `choose_action` (lines 78-85): per-action
quantile vectors to per-action scalars, `none` for an unrecognized string. -/
def reduceQ (na nq : ℕ) (risk : String) (quantiles : Fin na → Fin nq → ℚ) :
    Option (Fin na → ℚ) :=
  if risk = "neutral" then
    some fun a => meanFin fun j => quantiles a j
  else if risk = "risk-averse" then
    some fun a => torchQuantile (1 / 10) (List.ofFn (quantiles a))
  else if risk = "risk-seeking" then
    some fun a => torchQuantile (9 / 10) (List.ofFn (quantiles a))
  else
    none

/-- `QRDQNAgent.choose_action` (lines 64-87). `epsilon` is the agent's current
epsilon, `r` the `random.random()` draw, `randomAction` the value
`self.env.action_space.sample()` would return, `quantiles` the online network's
output on the given state. The `ValueError` of line 85 becomes `Except.error`. -/
def choose_action (na nq : ℕ) (epsilon r : ℚ) (randomAction : ℕ)
    (quantiles : Fin na → Fin nq → ℚ) (risk : String) : Except String ℕ :=
  if r < epsilon then
    Except.ok randomAction
  else
    match reduceQ na nq risk quantiles with
    | some q => Except.ok (greedy_action q)
    | none => Except.error ("Invalid risk preference. Choose neutral, risk-averse, or risk-seeking.")

/-- A sampled batch, the tuple returned by
`self.replay_buffer.sample(self.batch_size, beta=self.beta)` (line 99). -/
structure Batch (Obs : Type) (B na : ℕ) where
  states : Fin B → Obs
  actions : Fin B → Fin na
  rewards : Fin B → ℚ
  next_states : Fin B → Obs
  dones : Fin B → Bool
  indices : Fin B → ℕ
  weights : Fin B → ℚ

/-- The mutable state of the agent that `train_step` and `update_target_network`
touch: the two parameter sets, `self.beta`, and the replay buffer. -/
structure AgentState (θ buf : Type) where
  onlineParams : θ
  targetParams : θ
  beta : ℚ
  buffer : buf

/-- The prioritized replay buffer as the external interface the spec prescribes:
`len`, `sample(batch_size, beta)`, `update_priorities(indices, td_errors)`. -/
structure ReplayInterface (Obs buf : Type) (B na : ℕ) where
  size : buf → ℕ
  sample : buf → ℚ → Batch Obs B na
  update_priorities : buf → (Fin B → ℕ) → (Fin B → ℚ) → buf

/-- The hyperparameters `train_step` reads. -/
structure HyperParams where
  gamma : ℚ
  beta_increment : ℚ

/-- Lines 115-123: `quantiles_pred.gather(dim=1, index=actions_t.expand(...)).squeeze(1)`
= per batch element, the online quantile vector of the stored action. -/
def quantiles_pred_chosen {Obs θ : Type} {na nq B : ℕ}
    (F : θ → Obs → Fin na → Fin nq → ℚ) (p : θ) (bt : Batch Obs B na)
    (b : Fin B) (j : Fin nq) : ℚ :=
  F p (bt.states b) (bt.actions b) j

/-- Lines 128-133: `best_actions = next_quantiles_online.mean(dim=2).argmax(dim=1)`. -/
def best_actions {Obs θ : Type} {na nq B : ℕ} (hna : 0 < na)
    (F : θ → Obs → Fin na → Fin nq → ℚ) (p : θ) (bt : Batch Obs B na)
    (b : Fin B) : Fin na :=
  argmaxFin (fun a => meanFin fun j => F p (bt.next_states b) a j) hna

/-- Lines 137-146: `next_quantiles_target.gather(dim=1, index=best_actions_expanded)`. -/
def next_quantiles_target_chosen {Obs θ : Type} {na nq B : ℕ} (hna : 0 < na)
    (F : θ → Obs → Fin na → Fin nq → ℚ) (po pt : θ) (bt : Batch Obs B na)
    (b : Fin B) (j : Fin nq) : ℚ :=
  F pt (bt.next_states b) (best_actions hna F po bt b) j

/-- Lines 154-169: `targets = rewards_t + (1.0 - dones_t) * gamma * next_quantiles_target_chosen`,
with the broadcasting resolved; element `(b, j)` of the final `(B, nq)` tensor. -/
def targets {Obs θ : Type} {na nq B : ℕ} (hna : 0 < na)
    (F : θ → Obs → Fin na → Fin nq → ℚ) (po pt : θ) (gamma : ℚ)
    (bt : Batch Obs B na) (b : Fin B) (j : Fin nq) : ℚ :=
  bt.rewards b + (1 - doneFloat (bt.dones b)) * gamma *
    next_quantiles_target_chosen hna F po pt bt b j

/-- Line 176: `pairwise_delta = targets.unsqueeze(1) - quantiles_pred_chosen.unsqueeze(-1)`.
After broadcasting, entry `(b, x, y)` of the `(B, nq, nq)` tensor is
`targets[b, y] - pred[b, x]`: axis 1 (`x`) indexes the PREDICTED quantile and
axis 2 (`y`) the TARGET quantile. -/
def pairwise_delta {B nq : ℕ} (tg pr : Fin B → Fin nq → ℚ)
    (b : Fin B) (x y : Fin nq) : ℚ :=
  tg b y - pr b x

/-- Line 182: `indicator = (pairwise_delta.detach() < 0.0).float()` (detaching
changes the gradient graph, not the value). -/
def indicator {B nq : ℕ} (tg pr : Fin B → Fin nq → ℚ)
    (b : Fin B) (x y : Fin nq) : ℚ :=
  if pairwise_delta tg pr b x y < 0 then 1 else 0

/-- Line 183: `quantile_weights = torch.abs(tau - indicator)` where
`tau = self.tau_hat.view(1, -1, 1)` broadcasts `tau_hat` along axis 1, the
predicted-quantile axis `x`. -/
def quantile_weights {B nq : ℕ} (tg pr : Fin B → Fin nq → ℚ)
    (b : Fin B) (x y : Fin nq) : ℚ :=
  |tau_hat nq x - indicator tg pr b x y|

/-- Line 184: `loss = (quantile_weights * huber_loss).mean(dim=2).mean(dim=1)`:
inner mean over axis 2 (target quantiles `y`), outer over axis 1 (predicted
quantiles `x`), one value per batch element. -/
def loss_per_elem {B nq : ℕ} (tg pr : Fin B → Fin nq → ℚ) (b : Fin B) : ℚ :=
  meanFin fun x => meanFin fun y =>
    quantile_weights tg pr b x y * huber (pairwise_delta tg pr b x y) 1

/-- Line 185: `weighted_loss = (weights_t * loss).mean()`. -/
def weighted_loss {B nq : ℕ} (tg pr : Fin B → Fin nq → ℚ)
    (w : Fin B → ℚ) : ℚ :=
  meanFin fun b => w b * loss_per_elem tg pr b

/-- Line 192: `td_errors = torch.abs(targets - quantiles_pred_chosen).mean(dim=1)`. -/
def td_errors {B nq : ℕ} (tg pr : Fin B → Fin nq → ℚ) (b : Fin B) : ℚ :=
  meanFin fun j => |tg b j - pr b j|

/-- Modelled from the spec (claim C1 refinement reference): the claim's and the
spec's own wording of the loss, verbatim: `delta[b,i,j] = target[b,i] - predicted[b,j]`
with `i` the target index and `j` the predicted index, weight
`|tau_hat[i] - 1{delta[b,i,j] < 0}|` with `tau_hat` read at the TARGET index `i`,
averaged first over the predicted axis `j`, then over the target axis `i`. -/
def spec_loss_per_elem {B nq : ℕ} (tg pr : Fin B → Fin nq → ℚ) (b : Fin B) : ℚ :=
  meanFin fun i => meanFin fun j =>
    |tau_hat nq i - (if tg b i - pr b j < 0 then 1 else 0)| *
      huber (tg b i - pr b j) 1

/-- Modelled from the spec (claim C1 refinement reference): final scalar
`mean_b(IS_weight[b] * per_element_loss[b])` over `spec_loss_per_elem`. -/
def spec_weighted_loss {B nq : ℕ} (tg pr : Fin B → Fin nq → ℚ)
    (w : Fin B → ℚ) : ℚ :=
  meanFin fun b => w b * spec_loss_per_elem tg pr b

/-- `QRDQNAgent.train_step` (lines 92-193) as a transformer of the agent state.
The early return of lines 96-97 is the `if`; otherwise the batch is sampled,
`self.beta = min(1.0, self.beta + self.beta_increment)` (line 100), targets and
predictions are computed, the optimizer updates the online parameters by gradient
descent on the scalar loss (abstracted as `optStep`, fed the loss as a function
of candidate online parameters with the no-grad targets held fixed), and the
per-transition TD errors are written back as priorities. -/
def train_step {Obs θ buf : Type} {na nq B : ℕ} (hna : 0 < na)
    (R : ReplayInterface Obs buf B na) (F : θ → Obs → Fin na → Fin nq → ℚ)
    (optStep : θ → (θ → ℚ) → θ) (hp : HyperParams)
    (s : AgentState θ buf) : AgentState θ buf :=
  if R.size s.buffer < B then s
  else
    let bt := R.sample s.buffer s.beta
    let newBeta := min 1 (s.beta + hp.beta_increment)
    let tg := targets hna F s.onlineParams s.targetParams hp.gamma bt
    let pr := quantiles_pred_chosen F s.onlineParams bt
    let newOnline := optStep s.onlineParams fun p =>
      weighted_loss tg (quantiles_pred_chosen F p bt) bt.weights
    let newBuffer := R.update_priorities s.buffer bt.indices (td_errors tg pr)
    { onlineParams := newOnline, targetParams := s.targetParams,
      beta := newBeta, buffer := newBuffer }

/-- `QRDQNAgent.update_target_network` (lines 89-90):
`self.target_net.load_state_dict(self.online_net.state_dict())`. -/
def update_target_network {θ buf : Type} (s : AgentState θ buf) : AgentState θ buf :=
  { s with targetParams := s.onlineParams }

/-- Concrete batch for witnesses: one transition, one action, one quantile,
terminal, reward 5. -/
def cBatch : Batch Unit 1 1 where
  states := fun _ => ()
  actions := fun _ => 0
  rewards := fun _ => 5
  next_states := fun _ => ()
  dones := fun _ => true
  indices := fun _ => 0
  weights := fun _ => 1

/-- Concrete replay interface for witnesses: buffer state is its own size,
sampling always yields `cBatch`, priority writes bump the size. -/
def cReplay : ReplayInterface Unit ℕ 1 1 where
  size := fun b => b
  sample := fun _ _ => cBatch
  update_priorities := fun b _ _ => b + 1

/-- Concrete network for witnesses: output equals the parameter value. -/
def cF : ℚ → Unit → Fin 1 → Fin 1 → ℚ := fun p _ _ _ => p

/-- Concrete optimizer step for witnesses: subtract the loss value. -/
def cOpt : ℚ → (ℚ → ℚ) → ℚ := fun p lossFn => p - lossFn p

/-- Concrete hyperparameters for witnesses. -/
def cHp : HyperParams where
  gamma := 99 / 100
  beta_increment := 1 / 1000

/-- Agent state with an empty buffer (fewer stored transitions than the batch
size 1). -/
def cEmptyState : AgentState ℚ ℕ where
  onlineParams := 2
  targetParams := 3
  beta := 2 / 5
  buffer := 0

/-- Agent state with a stocked buffer (5 ≥ batch size 1). -/
def cStockedState : AgentState ℚ ℕ where
  onlineParams := 2
  targetParams := 3
  beta := 2 / 5
  buffer := 5

/-- Concrete loss-engine inputs refuting the spec's tau-indexing: one batch
element, two quantiles, targets `(10, 0)`, predictions `(0, 0)`, IS weight 1. -/
def cTg : Fin 1 → Fin 2 → ℚ := fun _ i => if i.val = 0 then 10 else 0

/-- Concrete predictions for the C1 counterexample. -/
def cPr : Fin 1 → Fin 2 → ℚ := fun _ _ => 0

/-- Concrete IS weights for the C1 counterexample. -/
def cW : Fin 1 → ℚ := fun _ => 1

/-- Concrete quantile vector (11 quantiles, one large negative outlier) whose
interpolated 10th percentile exceeds its mean. -/
def cV : Fin 11 → ℚ := fun i => if i.val = 0 then -1100 else 0

/-- Concrete two-quantile distribution for the C5 witness. -/
def cQpair : Fin 1 → Fin 2 → ℚ := fun _ j => if j.val = 0 then 3 else 1

lemma meanFin_eq_sum {n : ℕ} (f : Fin n → ℚ) : meanFin f = (∑ i, f i) / (n : ℚ) := by
  rw [meanFin, List.sum_ofFn]

lemma meanFin_comm {m n : ℕ} (g : Fin m → Fin n → ℚ) :
    meanFin (fun x => meanFin fun y => g x y) = meanFin fun y => meanFin fun x => g x y := by
  simp only [meanFin_eq_sum, ← Finset.sum_div]
  rw [Finset.sum_comm]
  ring

/-- C8: for any `num_quantiles ≥ 1`, the `tau_hat` vector built at construction
satisfies `tau_hat[i] = (i + 0.5) / num_quantiles`, is strictly increasing, and
every entry lies strictly within `(0, 1)`. -/
theorem tau_hat_spec (n : ℕ) (hn : 0 < n) :
    (∀ i : Fin n, tau_hat n i = ((i : ℚ) + 1 / 2) / (n : ℚ)) ∧
    StrictMono (tau_hat n) ∧
    (∀ i : Fin n, 0 < tau_hat n i ∧ tau_hat n i < 1) := by
  have hn' : (0 : ℚ) < (n : ℚ) := by exact_mod_cast hn
  have heq : ∀ i : Fin n, tau_hat n i = ((i : ℚ) + 1 / 2) / (n : ℚ) := by
    intro i
    unfold tau_hat linspace
    push_cast [Fin.coe_castSucc]
    field_simp
    ring
  refine ⟨heq, ?_, ?_⟩
  · intro i j hij
    rw [heq i, heq j]
    have hlt : (i : ℚ) < (j : ℚ) := by exact_mod_cast hij
    apply div_lt_div_of_pos_right _ hn'
    linarith
  · intro i
    rw [heq i]
    have h1 : (0 : ℚ) ≤ (i : ℚ) := by positivity
    have h2 : ((i : ℕ) : ℚ) + 1 ≤ (n : ℚ) := by exact_mod_cast Nat.succ_le_of_lt i.isLt
    constructor
    · positivity
    · rw [div_lt_one hn']
      linarith

/-- Witness for C8 at `num_quantiles = 4`. -/
theorem tau_hat_spec_witness :
    0 < 4 ∧
      ((∀ i : Fin 4, tau_hat 4 i = ((i : ℚ) + 1 / 2) / (4 : ℚ)) ∧
        StrictMono (tau_hat 4) ∧
        (∀ i : Fin 4, 0 < tau_hat 4 i ∧ tau_hat 4 i < 1)) :=
  ⟨by norm_num, tau_hat_spec 4 (by norm_num)⟩

/-- C10: the elementwise Huber function used by the loss engine (threshold
`k = 1.0`) is even and non-negative, and vanishes exactly at `0`. -/
theorem huber_even_nonneg_zero_iff (x : ℚ) :
    huber x 1 = huber (-x) 1 ∧ 0 ≤ huber x 1 ∧ (huber x 1 = 0 ↔ x = 0) := by
  refine ⟨?_, ?_, ?_⟩
  · unfold huber
    rw [abs_neg, neg_sq]
  · unfold huber
    by_cases h : |x| < 1
    · simp only [h, if_true]
      nlinarith [sq_nonneg x]
    · simp only [h, if_false]
      have h1 : 1 ≤ |x| := not_lt.1 h
      nlinarith
  · unfold huber
    by_cases h : |x| < 1
    · simp only [h, if_true]
      constructor
      · intro hx
        have : x ^ 2 = 0 := by nlinarith
        exact pow_eq_zero_iff (two_ne_zero) |>.1 this
      · rintro rfl
        norm_num
    · have h1 : 1 ≤ |x| := not_lt.1 h
      have h0 : x ≠ 0 := by
        intro hx
        rw [hx, abs_zero] at h1
        norm_num at h1
      simp only [h, if_false, h0, iff_false]
      intro hzero
      nlinarith

/-- C1 (amended): each element of the pairwise loss tensor is weighted by
`|tau_hat[j] - 1{delta[b,i,j] < 0}|` where `j` is the PREDICTED quantile index
(`tau = self.tau_hat.view(1,-1,1)` broadcasts along the predicted axis) and
`delta[b,i,j] = target[b,i] - predicted[b,j]`; the weighted Huber values are
averaged first over the predicted-quantile axis, then over the target-quantile
axis, and the final scalar loss is `mean_b(IS_weight[b] * per_element_loss[b])`. -/
theorem quantile_huber_loss_formula {B nq : ℕ} (tg pr : Fin B → Fin nq → ℚ)
    (w : Fin B → ℚ) :
    (∀ b, loss_per_elem tg pr b =
      meanFin fun i => meanFin fun j =>
        |tau_hat nq j - (if tg b i - pr b j < 0 then 1 else 0)| *
          huber (tg b i - pr b j) 1) ∧
    weighted_loss tg pr w =
      meanFin fun b => w b * meanFin fun i => meanFin fun j =>
        |tau_hat nq j - (if tg b i - pr b j < 0 then 1 else 0)| *
          huber (tg b i - pr b j) 1 := by
  have h1 : ∀ b, loss_per_elem tg pr b =
      meanFin fun i => meanFin fun j =>
        |tau_hat nq j - (if tg b i - pr b j < 0 then 1 else 0)| *
          huber (tg b i - pr b j) 1 := by
    intro b
    simp only [loss_per_elem, quantile_weights, indicator, pairwise_delta]
    exact meanFin_comm fun x y =>
      |tau_hat nq x - if tg b y - pr b x < 0 then 1 else 0| * huber (tg b y - pr b x) 1
  refine ⟨h1, ?_⟩
  unfold weighted_loss
  congr 1
  funext b
  rw [h1 b]

/-- Counterexample to C1 as stated: with targets `(10, 0)`, predictions `(0, 0)`
and IS weight `1` for a single batch element, the loss computed by `train_step`
is `19/8` while the spec's reference loss (with `tau_hat` read at the TARGET
quantile index) is `19/16`. -/
theorem loss_tau_index_counterexample :
    loss_per_elem cTg cPr 0 ≠ spec_loss_per_elem cTg cPr 0 ∧
    weighted_loss cTg cPr cW ≠ spec_weighted_loss cTg cPr cW := by
  have h1 : loss_per_elem cTg cPr 0 = 19 / 8 := by
    norm_num [loss_per_elem, meanFin, quantile_weights, indicator, pairwise_delta,
      tau_hat, linspace, huber, cTg, cPr, List.ofFn_succ, abs_of_nonneg, abs_of_nonpos]
  have h2 : spec_loss_per_elem cTg cPr 0 = 19 / 16 := by
    norm_num [spec_loss_per_elem, meanFin, tau_hat, linspace, huber, cTg, cPr,
      List.ofFn_succ, abs_of_nonneg, abs_of_nonpos]
  have h3 : weighted_loss cTg cPr cW = 19 / 8 := by
    norm_num [weighted_loss, loss_per_elem, meanFin, quantile_weights, indicator,
      pairwise_delta, tau_hat, linspace, huber, cTg, cPr, cW, List.ofFn_succ,
      abs_of_nonneg, abs_of_nonpos]
  have h4 : spec_weighted_loss cTg cPr cW = 19 / 16 := by
    norm_num [spec_weighted_loss, spec_loss_per_elem, meanFin, tau_hat, linspace,
      huber, cTg, cPr, cW, List.ofFn_succ, abs_of_nonneg, abs_of_nonpos]
  rw [h1, h2, h3, h4]
  norm_num

/-- C2: the Bellman target tensor built inside `train_step` equals
`reward + (1 - done) * gamma * selected_next_quantiles`, where the next action is
the argmax of the online network's per-action quantile mean and the quantiles come
from the target network at that action; for `done = true` the target equals the
reward broadcast across all quantiles, independent of the target parameters. -/
theorem bellman_targets_spec {Obs θ : Type} {na nq B : ℕ} (hna : 0 < na)
    (F : θ → Obs → Fin na → Fin nq → ℚ) (po pt : θ) (gamma : ℚ)
    (bt : Batch Obs B na) :
    (∀ (b : Fin B) (j : Fin nq),
      targets hna F po pt gamma bt b j =
        bt.rewards b + (1 - doneFloat (bt.dones b)) * gamma *
          F pt (bt.next_states b)
            (argmaxFin (fun a => meanFin fun k => F po (bt.next_states b) a k) hna) j) ∧
    (∀ (b : Fin B) (j : Fin nq), bt.dones b = true →
      targets hna F po pt gamma bt b j = bt.rewards b) ∧
    (∀ (pt' : θ) (b : Fin B) (j : Fin nq), bt.dones b = true →
      targets hna F po pt gamma bt b j = targets hna F po pt' gamma bt b j) := by
  have hdone : ∀ (pt₀ : θ) (b : Fin B) (j : Fin nq), bt.dones b = true →
      targets hna F po pt₀ gamma bt b j = bt.rewards b := by
    intro pt₀ b j hd
    unfold targets doneFloat
    rw [hd]
    simp
  refine ⟨?_, hdone pt, ?_⟩
  · intro b j
    rfl
  · intro pt' b j hd
    rw [hdone pt b j hd, hdone pt' b j hd]

/-- Witness for C2: for the concrete terminal batch `cBatch` the target equals the
stored reward `5`, whatever the target parameters are. -/
theorem bellman_targets_spec_witness :
    cBatch.dones 0 = true ∧
    targets (Nat.one_pos) cF 2 3 (99 / 100) cBatch 0 0 = cBatch.rewards 0 :=
  ⟨rfl, (bellman_targets_spec Nat.one_pos cF 2 3 (99 / 100) cBatch).2.1 0 0 rfl⟩

/-- C4: whenever the replay buffer holds strictly fewer transitions than
`batch_size`, `train_step` is a no-op: the whole agent state (parameters, beta,
buffer with its priorities) is returned unchanged. -/
theorem train_step_skip_noop {Obs θ buf : Type} {na nq B : ℕ} (hna : 0 < na)
    (R : ReplayInterface Obs buf B na) (F : θ → Obs → Fin na → Fin nq → ℚ)
    (optStep : θ → (θ → ℚ) → θ) (hp : HyperParams) (s : AgentState θ buf)
    (h : R.size s.buffer < B) :
    train_step hna R F optStep hp s = s := by
  unfold train_step
  rw [if_pos h]

/-- Witness for C4: the concrete empty-buffer agent is left untouched. -/
theorem train_step_skip_noop_witness :
    cReplay.size cEmptyState.buffer < 1 ∧
    train_step Nat.one_pos cReplay cF cOpt cHp cEmptyState = cEmptyState :=
  ⟨by decide,
    train_step_skip_noop Nat.one_pos cReplay cF cOpt cHp cEmptyState (by decide)⟩

/-- C3 (amended): on every `train_step` that passes the buffer-size precondition,
`beta` is set to `min(1.0, beta + beta_increment)`; when the step is skipped for
lack of stored transitions (lines 96-97 return before line 100), `beta` is left
unchanged. -/
theorem beta_increment_on_run {Obs θ buf : Type} {na nq B : ℕ} (hna : 0 < na)
    (R : ReplayInterface Obs buf B na) (F : θ → Obs → Fin na → Fin nq → ℚ)
    (optStep : θ → (θ → ℚ) → θ) (hp : HyperParams) (s : AgentState θ buf)
    (h : ¬ R.size s.buffer < B) :
    (train_step hna R F optStep hp s).beta = min 1 (s.beta + hp.beta_increment) := by
  unfold train_step
  rw [if_neg h]

/-- Counterexample to C3 as stated: with an empty buffer (0 < batch size 1) and
`beta = 2/5`, `beta_increment = 1/1000`, invoking `train_step` leaves `beta` at
`2/5`, which differs from the incremented value the claim demands. -/
theorem beta_skip_counterexample :
    cReplay.size cEmptyState.buffer < 1 ∧
    (train_step Nat.one_pos cReplay cF cOpt cHp cEmptyState).beta = cEmptyState.beta ∧
    cEmptyState.beta ≠ min 1 (cEmptyState.beta + cHp.beta_increment) := by
  refine ⟨by decide, ?_, ?_⟩
  · norm_num [train_step, cReplay, cEmptyState]
  · norm_num [cEmptyState, cHp, min_def]

/-- Witness for C3 (amended): with a stocked buffer the step runs and `beta`
becomes `min(1, 2/5 + 1/1000)`. -/
theorem beta_increment_on_run_witness :
    ¬ cReplay.size cStockedState.buffer < 1 ∧
    (train_step Nat.one_pos cReplay cF cOpt cHp cStockedState).beta =
      min 1 (cStockedState.beta + cHp.beta_increment) :=
  ⟨by decide,
    beta_increment_on_run Nat.one_pos cReplay cF cOpt cHp cStockedState (by decide)⟩

/-- C9: `train_step` never mutates the target parameters; `update_target_network`
overwrites the target parameters with the online ones (and leaves the online ones
alone), so that immediately afterwards the target approximator agrees with the
online approximator on every input. -/
theorem params_frame_spec {Obs θ buf : Type} {na nq B : ℕ} (hna : 0 < na)
    (R : ReplayInterface Obs buf B na) (F : θ → Obs → Fin na → Fin nq → ℚ)
    (optStep : θ → (θ → ℚ) → θ) (hp : HyperParams) (s : AgentState θ buf) :
    (train_step hna R F optStep hp s).targetParams = s.targetParams ∧
    (update_target_network s).targetParams = s.onlineParams ∧
    (update_target_network s).onlineParams = s.onlineParams ∧
    ∀ (x : Obs) (a : Fin na) (j : Fin nq),
      F (update_target_network s).targetParams x a j =
        F (update_target_network s).onlineParams x a j := by
  refine ⟨?_, rfl, rfl, fun x a j => rfl⟩
  unfold train_step
  by_cases h : R.size s.buffer < B
  · rw [if_pos h]
  · rw [if_neg h]

/-- Witness for C9 at the concrete stocked agent. -/
theorem params_frame_spec_witness :
    0 < 1 ∧
    ((train_step Nat.one_pos cReplay cF cOpt cHp cStockedState).targetParams =
        cStockedState.targetParams ∧
      (update_target_network cStockedState).targetParams = cStockedState.onlineParams ∧
      (update_target_network cStockedState).onlineParams = cStockedState.onlineParams ∧
      ∀ (x : Unit) (a : Fin 1) (j : Fin 1),
        cF (update_target_network cStockedState).targetParams x a j =
          cF (update_target_network cStockedState).onlineParams x a j) :=
  ⟨Nat.one_pos, params_frame_spec Nat.one_pos cReplay cF cOpt cHp cStockedState⟩

lemma argmax_finRange_spec {n : ℕ} (h : 0 < n) (q : Fin n → ℚ) :
    ∃ a : Fin n, (List.finRange n).argmax q = some a ∧
      (∀ b, q b ≤ q a) ∧ (∀ b, q b = q a → a ≤ b) := by
  cases hA : (List.finRange n).argmax q with
  | none =>
    exfalso
    rw [List.argmax_eq_none] at hA
    have hlen := List.length_finRange n
    rw [hA] at hlen
    simp at hlen
    omega
  | some a =>
    refine ⟨a, rfl, ?_, ?_⟩
    · intro b
      exact List.le_of_mem_argmax (List.mem_finRange b) (Option.mem_def.2 hA)
    · intro b hb
      have h1 := List.index_of_argmax (Option.mem_def.2 hA) (List.mem_finRange b)
        (le_of_eq hb.symm)
      rwa [List.indexOf_finRange, List.indexOf_finRange, ← Fin.le_def] at h1

/-- C6: with `epsilon = 0` (so any draw `r ≥ 0` skips exploration) and the
deterministic embedded approximator, `choose_action` returns the same result for
any two draws and any two environment-sampled fallback actions; the result is a
valid action index in `[0, num_actions)`, it maximizes the reduced per-action
scalars, and ties are broken by the lowest action index. -/
theorem choose_action_greedy_spec (na nq : ℕ) (hna : 0 < na) (r r' : ℚ)
    (hr : 0 ≤ r) (hr' : 0 ≤ r') (ra ra' : ℕ) (Q : Fin na → Fin nq → ℚ)
    (risk : String) (q : Fin na → ℚ) (hq : reduceQ na nq risk Q = some q) :
    choose_action na nq 0 r ra Q risk = choose_action na nq 0 r' ra' Q risk ∧
    ∃ a : Fin na, choose_action na nq 0 r ra Q risk = Except.ok a.val ∧
      (∀ b, q b ≤ q a) ∧ (∀ b, q b = q a → a ≤ b) := by
  have hc : ∀ (r₀ : ℚ), 0 ≤ r₀ → ∀ (ra₀ : ℕ),
      choose_action na nq 0 r₀ ra₀ Q risk = Except.ok (greedy_action q) := by
    intro r₀ h₀ ra₀
    unfold choose_action
    rw [if_neg (not_lt.2 h₀), hq]
  obtain ⟨a, hA, hmax, htie⟩ := argmax_finRange_spec hna q
  refine ⟨by rw [hc r hr ra, hc r' hr' ra'], a, ?_, hmax, htie⟩
  rw [hc r hr ra]
  unfold greedy_action
  rw [hA]
  rfl

/-- Witness for C6: two quantiles `(3, 1)` for the single action; both calls
return action `0`. -/
theorem choose_action_greedy_spec_witness :
    (0:ℚ) ≤ 0 ∧ (0:ℚ) ≤ 1 / 2 ∧
    reduceQ 1 2 ("neutral") cQpair = some (fun a => meanFin fun j => cQpair a j) ∧
    (choose_action 1 2 0 0 5 cQpair ("neutral") =
        choose_action 1 2 0 (1 / 2) 9 cQpair ("neutral") ∧
      ∃ a : Fin 1, choose_action 1 2 0 0 5 cQpair ("neutral") = Except.ok a.val ∧
        (∀ b, meanFin (fun j => cQpair b j) ≤ meanFin (fun j => cQpair a j)) ∧
        (∀ b, meanFin (fun j => cQpair b j) = meanFin (fun j => cQpair a j) → a ≤ b)) :=
  ⟨le_refl 0, by norm_num, rfl,
    choose_action_greedy_spec 1 2 Nat.one_pos 0 (1 / 2) (le_refl 0) (by norm_num)
      5 9 cQpair ("neutral") _ rfl⟩

/-- C7 (amended): whenever the exploration branch is not taken (the random draw
is not below `epsilon`, e.g. `epsilon = 0`), an unrecognized `risk_preference`
string makes `choose_action` fail immediately with the `ValueError`, for every
state. -/
theorem invalid_risk_error (na nq : ℕ) (epsilon r : ℚ) (h : ¬ r < epsilon)
    (ra : ℕ) (Q : Fin na → Fin nq → ℚ) (risk : String)
    (h1 : risk ≠ "neutral") (h2 : risk ≠ "risk-averse") (h3 : risk ≠ "risk-seeking") :
    choose_action na nq epsilon r ra Q risk =
      Except.error ("Invalid risk preference. Choose neutral, risk-averse, or risk-seeking.") := by
  unfold choose_action reduceQ
  rw [if_neg h]
  simp [h1, h2, h3]

/-- Witness for C7 (amended): with `epsilon = 0` the bogus string yields the error. -/
theorem invalid_risk_error_witness :
    ¬ (0:ℚ) < 0 ∧
    choose_action 1 1 0 0 7 (fun _ _ => 0) ("bogus") =
      Except.error ("Invalid risk preference. Choose neutral, risk-averse, or risk-seeking.") :=
  ⟨lt_irrefl 0,
    invalid_risk_error 1 1 0 0 (lt_irrefl 0) 7 (fun _ _ => 0) ("bogus")
      (by decide) (by decide) (by decide)⟩

/-- Counterexample to C7 as stated: when the exploration branch fires
(`epsilon = 1`, draw `0`), `choose_action` with the invalid string "bogus"
returns the random action `7` instead of failing. -/
theorem invalid_risk_explore_counterexample :
    ("bogus" ≠ "neutral" ∧ "bogus" ≠ "risk-averse" ∧ "bogus" ≠ "risk-seeking") ∧
    choose_action 1 1 1 0 7 (fun _ _ => 0) ("bogus") = Except.ok 7 := by
  refine ⟨⟨by decide, by decide, by decide⟩, ?_⟩
  norm_num [choose_action]

lemma getD_mono_of_sorted {s : List ℚ} (hs : s.Sorted (· ≤ ·)) {i j : ℕ}
    (hij : i ≤ j) (hj : j < s.length) : s.getD i 0 ≤ s.getD j 0 := by
  have hi : i < s.length := Nat.lt_of_le_of_lt hij hj
  rw [List.getD_eq_getElem _ _ hi, List.getD_eq_getElem _ _ hj]
  rcases Nat.lt_or_ge i j with hlt | hge
  · exact List.pairwise_iff_getElem.1 hs i j hi hj hlt
  · have heq : i = j := le_antisymm hij hge
    subst heq
    exact le_refl _

lemma frac_nonneg (p : ℚ) : 0 ≤ p - (⌊p⌋ : ℚ) := by
  linarith [Int.floor_le p]

lemma frac_lt_one (p : ℚ) : p - (⌊p⌋ : ℚ) < 1 := by
  linarith [Int.lt_floor_add_one p]

lemma interpAt_le_ceil {s : List ℚ} (hs : s.Sorted (· ≤ ·)) {p : ℚ}
    (hc : Int.toNat ⌈p⌉ < s.length) :
    interpAt s p ≤ s.getD (Int.toNat ⌈p⌉) 0 := by
  have hfl : Int.toNat ⌊p⌋ ≤ Int.toNat ⌈p⌉ := by
    have := Int.floor_le_ceil p
    omega
  have h1 := getD_mono_of_sorted hs hfl hc
  have h2 := frac_nonneg p
  have h3 := frac_lt_one p
  unfold interpAt
  nlinarith [mul_nonneg (by linarith : (0:ℚ) ≤ 1 - (p - (⌊p⌋ : ℚ)))
    (by linarith : (0:ℚ) ≤ s.getD (Int.toNat ⌈p⌉) 0 - s.getD (Int.toNat ⌊p⌋) 0)]

lemma floor_le_interpAt {s : List ℚ} (hs : s.Sorted (· ≤ ·)) {p : ℚ}
    (hc : Int.toNat ⌈p⌉ < s.length) :
    s.getD (Int.toNat ⌊p⌋) 0 ≤ interpAt s p := by
  have hfl : Int.toNat ⌊p⌋ ≤ Int.toNat ⌈p⌉ := by
    have := Int.floor_le_ceil p
    omega
  have h1 := getD_mono_of_sorted hs hfl hc
  have h2 := frac_nonneg p
  unfold interpAt
  nlinarith [mul_nonneg h2
    (by linarith : (0:ℚ) ≤ s.getD (Int.toNat ⌈p⌉) 0 - s.getD (Int.toNat ⌊p⌋) 0)]

lemma interpAt_mono {s : List ℚ} (hs : s.Sorted (· ≤ ·)) {p p' : ℚ}
    (hp0 : 0 ≤ p) (hpp : p ≤ p') (hp' : p' ≤ (s.length : ℚ) - 1) :
    interpAt s p ≤ interpAt s p' := by
  have hp0' : 0 ≤ p' := le_trans hp0 hpp
  have hn : 1 ≤ s.length := by
    have h0 : (0:ℚ) ≤ (s.length : ℚ) - 1 := le_trans hp0' hp'
    have h1 : (1:ℚ) ≤ (s.length : ℚ) := by linarith
    exact_mod_cast h1
  have hcp' : ⌈p'⌉ ≤ (s.length : ℤ) - 1 := by
    rw [Int.ceil_le]
    push_cast
    linarith
  have hcp : ⌈p⌉ ≤ (s.length : ℤ) - 1 := le_trans (Int.ceil_le_ceil hpp) hcp'
  have hfp : (0:ℤ) ≤ ⌊p⌋ := Int.floor_nonneg.2 hp0
  have hfp' : (0:ℤ) ≤ ⌊p'⌋ := Int.floor_nonneg.2 hp0'
  have hflef : ⌊p⌋ ≤ ⌊p'⌋ := Int.floor_le_floor hpp
  have hfc : ⌊p⌋ ≤ ⌈p⌉ := Int.floor_le_ceil p
  have hfc' : ⌊p'⌋ ≤ ⌈p'⌉ := Int.floor_le_ceil p'
  have hcNat : Int.toNat ⌈p⌉ < s.length := by omega
  have hcNat' : Int.toNat ⌈p'⌉ < s.length := by omega
  by_cases hcase : ⌈p⌉ ≤ ⌊p'⌋
  · have h1 := interpAt_le_ceil hs hcNat
    have h2 : s.getD (Int.toNat ⌈p⌉) 0 ≤ s.getD (Int.toNat ⌊p'⌋) 0 :=
      getD_mono_of_sorted hs (by omega) (by omega)
    have h3 := floor_le_interpAt hs hcNat'
    linarith
  · push_neg at hcase
    have hca : ⌈p⌉ ≤ ⌊p⌋ + 1 := Int.ceil_le_floor_add_one p
    have hca' : ⌈p'⌉ ≤ ⌊p'⌋ + 1 := Int.ceil_le_floor_add_one p'
    have hcc : ⌈p⌉ ≤ ⌈p'⌉ := Int.ceil_le_ceil hpp
    have hfe : ⌊p'⌋ = ⌊p⌋ := by omega
    have hce : ⌈p⌉ = ⌊p⌋ + 1 := by omega
    have hce' : ⌈p'⌉ = ⌊p⌋ + 1 := by omega
    have hlohi : s.getD (Int.toNat ⌊p⌋) 0 ≤ s.getD (Int.toNat (⌊p⌋ + 1)) 0 :=
      getD_mono_of_sorted hs (by omega) (by omega)
    unfold interpAt
    rw [hfe, hce, hce']
    nlinarith [mul_le_mul_of_nonneg_right hpp
      (by linarith : (0:ℚ) ≤ s.getD (Int.toNat (⌊p⌋ + 1)) 0 - s.getD (Int.toNat ⌊p⌋) 0)]

lemma torchQuantile_mono {l : List ℚ} (hl : l ≠ []) {q1 q2 : ℚ}
    (h0 : 0 ≤ q1) (h12 : q1 ≤ q2) (h21 : q2 ≤ 1) :
    torchQuantile q1 l ≤ torchQuantile q2 l := by
  have hlen : 1 ≤ l.length := List.length_pos.2 hl
  have hlen' : (1:ℚ) ≤ (l.length : ℚ) := by exact_mod_cast hlen
  have hsorted : (l.insertionSort (· ≤ ·)).Sorted (· ≤ ·) :=
    List.sorted_insertionSort (· ≤ ·) l
  have hslen : (l.insertionSort (· ≤ ·)).length = l.length :=
    List.length_insertionSort (· ≤ ·) l
  unfold torchQuantile
  apply interpAt_mono hsorted
  · exact mul_nonneg h0 (by linarith)
  · exact mul_le_mul_of_nonneg_right h12 (by linarith)
  · rw [hslen]
    nlinarith

/-- C5 (amended): for any quantile vector of an action (any `num_quantiles ≥ 1`),
the scalar produced by the risk-averse reduction (interpolated 10th percentile)
is ≤ the scalar produced by the risk-seeking reduction (interpolated 90th
percentile); the neutral reduction (the mean) need not lie between them. -/
theorem risk_quantile_ordering (na nq : ℕ) (hnq : 0 < nq)
    (quantiles : Fin na → Fin nq → ℚ) (a : Fin na) :
    torchQuantile (1 / 10) (List.ofFn (quantiles a)) ≤
      torchQuantile (9 / 10) (List.ofFn (quantiles a)) := by
  apply torchQuantile_mono
  · intro hnil
    have hlen := congrArg List.length hnil
    simp at hlen
    omega
  · norm_num
  · norm_num
  · norm_num

/-- Witness for C5 (amended) at the concrete two-quantile vector `(3, 1)`. -/
theorem risk_quantile_ordering_witness :
    0 < 2 ∧
    torchQuantile (1 / 10) (List.ofFn (cQpair 0)) ≤
      torchQuantile (9 / 10) (List.ofFn (cQpair 0)) :=
  ⟨by norm_num, risk_quantile_ordering 1 2 (by norm_num) cQpair 0⟩

/-- Counterexample to C5 as stated: for the 11-quantile vector `cV` (one large
negative outlier), the risk-averse scalar is `0` while the neutral scalar (the
mean) is `-100`, so the claimed chain
risk-averse ≤ neutral ≤ risk-seeking fails at its first link. -/
theorem risk_ordering_counterexample :
    ¬ (torchQuantile (1 / 10) (List.ofFn cV) ≤ meanFin cV ∧
       meanFin cV ≤ torchQuantile (9 / 10) (List.ofFn cV)) := by
  have h1 : torchQuantile (1 / 10) (List.ofFn cV) = 0 := by
    norm_num [torchQuantile, interpAt, cV, List.ofFn_succ, List.insertionSort,
      List.orderedInsert, List.getD, List.getElem?_cons_succ, List.getElem?_cons_zero,
      Int.toNat]
  have h2 : meanFin cV = -100 := by
    norm_num [meanFin, cV, List.ofFn_succ]
  rw [h1, h2]
  norm_num
